import Mathlib

/-!
Verification of the BSE propofol demo core (`src/demo/bse-propofol/bse_pk.js`):
a Marsh three-compartment pharmacokinetic model integrated with classic RK4,
plus a parameter normalizer and a metrics reduction (cmax / tmax / auc).

The JavaScript numbers are modelled as exact rationals (ℚ); the `-Infinity`
initial value of `cmax` in `computeMetrics` is modelled as `⊥ : WithBot ℚ`.
A missing or non-finite input field (NaN after `parseFloat`) is modelled as
`none : Option ℚ`.
-/

namespace BsePk

/-! ### Marsh model constants (bse_pk.js lines 26-35) -/

def k10 : ℚ := 119/1000
def k12 : ℚ := 112/1000
def k21 : ℚ := 55/1000
def k13 : ℚ := 42/1000
def k31 : ℚ := 33/10000

def V1_per_kg : ℚ := 228/1000
def V2_per_kg : ℚ := 463/1000
def V3_per_kg : ℚ := 2893/1000

/-! ### Parameters and the normalizer (`readParams`) -/

/-- A raw parameter record as read from the UI: each field is the result of
`parseFloat` on the input, with `none` standing for a missing or non-finite
(NaN) value. -/
structure RawParams where
  weight : Option ℚ
  bolus_mg : Option ℚ
  infusion_mg_min : Option ℚ
  infusion_duration_min : Option ℚ
  t_end_min : Option ℚ
  dt_min : Option ℚ

/-- A normalized parameter record (the `p` object after `readParams`). -/
structure Params where
  weight : ℚ
  bolus_mg : ℚ
  infusion_mg_min : ℚ
  infusion_duration_min : ℚ
  t_end_min : ℚ
  dt_min : ℚ
deriving DecidableEq

/-- The guardrail block of `readParams` (bse_pk.js lines 44-52): each invalid
field (missing/non-finite, or out of range) is replaced by its default. -/
def guardrails (r : RawParams) : Params where
  weight := match r.weight with
    | none => 70
    | some x => if x ≤ 0 then 70 else x
  bolus_mg := match r.bolus_mg with
    | none => 0
    | some x => if x < 0 then 0 else x
  infusion_mg_min := match r.infusion_mg_min with
    | none => 0
    | some x => if x < 0 then 0 else x
  infusion_duration_min := match r.infusion_duration_min with
    | none => 0
    | some x => if x < 0 then 0 else x
  t_end_min := match r.t_end_min with
    | none => 240
    | some x => if x ≤ 0 then 240 else x
  dt_min := match r.dt_min with
    | none => 1/5
    | some x => if x ≤ 0 then 1/5 else x

/-- The step ceiling `MAX_STEPS` (bse_pk.js line 55). -/
def MAX_STEPS : ℚ := 20000

/-- The step-count cap of `readParams` (bse_pk.js lines 54-62): if
`t_end_min / dt_min > MAX_STEPS`, the step size is enlarged to
`t_end_min / MAX_STEPS`. -/
def capSteps (p : Params) : Params :=
  let steps := p.t_end_min / p.dt_min
  if steps > MAX_STEPS then { p with dt_min := p.t_end_min / MAX_STEPS } else p

/-- JavaScript `x.toFixed 4` for a non-negative rational: round to the nearest
multiple of `1/10000`, ties toward the larger value. -/
def toFixed4 (x : ℚ) : ℚ := (⌊x * 10000 + 1/2⌋ : ℚ) / 10000

/-- The value written back into the `dt_min` input field by `readParams`
(bse_pk.js lines 60-61): `p.dt_min.toFixed 4` when the cap fires, nothing
otherwise. -/
def reflectedDt (p : Params) : Option ℚ :=
  if p.t_end_min / p.dt_min > MAX_STEPS then some (toFixed4 (p.t_end_min / MAX_STEPS))
  else none

/-- Full `readParams`: guardrails followed by the step-count cap. -/
def readParams (r : RawParams) : Params := capSteps (guardrails r)

/-- The §3 constraints a normalized parameter set must satisfy. -/
def Normalized (p : Params) : Prop :=
  0 < p.weight ∧ 0 ≤ p.bolus_mg ∧ 0 ≤ p.infusion_mg_min ∧
    0 ≤ p.infusion_duration_min ∧ 0 < p.t_end_min ∧ 0 < p.dt_min

/-! ### Dose rate and derivatives (bse_pk.js lines 68-80) -/

/-- Infusion (mg/min) applied from `t = 0` to `t = infusion_duration_min`. -/
def doseRate (t : ℚ) (p : Params) : ℚ :=
  if p.infusion_mg_min ≤ 0 ∨ p.infusion_duration_min ≤ 0 then 0
  else if t ≤ p.infusion_duration_min then p.infusion_mg_min else 0

/-- The three-compartment mass-balance derivatives. -/
def deriv (t A1 A2 A3 : ℚ) (p : Params) : ℚ × ℚ × ℚ :=
  let input := doseRate t p
  (input + k21*A2 + k31*A3 - (k10 + k12 + k13)*A1,
   k12*A1 - k21*A2,
   k13*A1 - k31*A3)

/-! ### RK4 solver (bse_pk.js lines 83-130) -/

/-- One row of the trace arrays: `(t, A1, A2, A3)` pushed at the end of a loop
iteration (or the initial row). -/
structure Row where
  t : ℚ
  A1 : ℚ
  A2 : ℚ
  A3 : ℚ
deriving DecidableEq

/-- One RK4 update of the masses over a step of width `h`, including the
non-negativity clamp (`Math.max 0 _`) applied after the update. -/
def step (p : Params) (t A1 A2 A3 h : ℚ) : ℚ × ℚ × ℚ :=
  let k1 := deriv t A1 A2 A3 p
  let k2 := deriv (t + 1/2*h) (A1 + 1/2*h*k1.1) (A2 + 1/2*h*k1.2.1) (A3 + 1/2*h*k1.2.2) p
  let k3 := deriv (t + 1/2*h) (A1 + 1/2*h*k2.1) (A2 + 1/2*h*k2.2.1) (A3 + 1/2*h*k2.2.2) p
  let k4 := deriv (t + h) (A1 + h*k3.1) (A2 + h*k3.2.1) (A3 + h*k3.2.2) p
  (max 0 (A1 + h/6 * (k1.1 + 2*k2.1 + 2*k3.1 + k4.1)),
   max 0 (A2 + h/6 * (k1.2.1 + 2*k2.2.1 + 2*k3.2.1 + k4.2.1)),
   max 0 (A3 + h/6 * (k1.2.2 + 2*k2.2.2 + 2*k3.2.2 + k4.2.2)))

/-- The stepping loop of `solveRK4`: at most `n` further iterations starting
from state `(t, A1, A2, A3)`; breaks as soon as `t ≥ t_end_min`; each
iteration uses `h = min dt_min (t_end_min - t)` and pushes the updated row. -/
def loop (p : Params) : Nat → ℚ → ℚ → ℚ → ℚ → List Row
  | 0, _, _, _, _ => []
  | n+1, t, A1, A2, A3 =>
    if p.t_end_min ≤ t then []
    else
      let h := min p.dt_min (p.t_end_min - t)
      let s := step p t A1 A2 A3 h
      let t' := t + h
      ⟨t', s.1, s.2.1, s.2.2⟩ :: loop p n t' s.1 s.2.1 s.2.2

/-- The loop bound `nSteps = Math.ceil (t_end_min / dt_min)` (bse_pk.js line 97),
used as loop fuel. -/
def nSteps (p : Params) : Nat := (⌈p.t_end_min / p.dt_min⌉).toNat

/-- The solver output: parallel sequences `t, A1, A2, A3, C1`. -/
structure Sol where
  t : List ℚ
  A1 : List ℚ
  A2 : List ℚ
  A3 : List ℚ
  C1 : List ℚ
deriving DecidableEq

/-- The solver `solveRK4`: initial state `A1 = bolus_mg, A2 = A3 = 0` at `t = 0`, then
the stepping loop; `C1` is `A1` divided by `V1 = V1_per_kg * weight`. -/
def solveRK4 (p : Params) : Sol :=
  let rows : List Row := ⟨0, p.bolus_mg, 0, 0⟩ :: loop p (nSteps p) 0 p.bolus_mg 0 0
  let V1 := V1_per_kg * p.weight
  { t := rows.map Row.t
    A1 := rows.map Row.A1
    A2 := rows.map Row.A2
    A3 := rows.map Row.A3
    C1 := (rows.map Row.A1).map (fun a => a / V1) }

/-! ### Metrics (bse_pk.js lines 132-153) -/

/-- The `i > 0` trapezoid accumulation of the `computeMetrics` loop: add
`0.5 * (C1 i + C1 (i-1)) * (t i - t (i-1))` to `auc`, except at the first
index (no previous pair). -/
def aucStep (prev : Option (ℚ × ℚ)) (t c auc : ℚ) : ℚ :=
  match prev with
  | none => auc
  | some q => auc + 1/2 * (c + q.2) * (t - q.1)

/-- The body of the `computeMetrics` loop over index `i`, processing the
pairs `(t i, C1 i)` in order.  The accumulator is `(cmax, tmax, auc)`, with
`cmax : WithBot ℚ` starting at `⊥` (JavaScript `-Infinity`); `prev` is the
previous pair, used for the trapezoid term. -/
def metricsLoop : List (ℚ × ℚ) → Option (ℚ × ℚ) → WithBot ℚ × ℚ × ℚ → WithBot ℚ × ℚ × ℚ
  | [], _, acc => acc
  | (t, c) :: rest, prev, (cmax, tmax, auc) =>
    let cmax' := if cmax < (c : WithBot ℚ) then (c : WithBot ℚ) else cmax
    let tmax' := if cmax < (c : WithBot ℚ) then t else tmax
    metricsLoop rest (some (t, c)) (cmax', tmax', aucStep prev t c auc)

/-- The reducer `computeMetrics`: fold over the trace starting from
`cmax = -Infinity, tmax = 0, auc = 0`. -/
def computeMetrics (sol : Sol) : WithBot ℚ × ℚ × ℚ :=
  metricsLoop (sol.t.zip sol.C1) none (⊥, 0, 0)

/-! ## Concrete scenarios used by witnesses -/

/-- The all-missing raw record (every input NaN). -/
def rawNone : RawParams := ⟨none, none, none, none, none, none⟩

/-- A normalized record whose requested step count 240 / (1/100000) exceeds
the cap. -/
def capScenario : Params := ⟨70, 0, 0, 0, 240, 1/100000⟩

/-- The §8 infusion scenario: rate 10 mg/min for 30 min. -/
def infusionScenario : Params := ⟨70, 0, 10, 30, 240, 1/5⟩

/-- A capped scenario whose effective step `241.3 / 20000 = 0.012065` has more
than four decimal places, so `toFixed 4` changes it. -/
def reflectScenario : Params := ⟨70, 0, 0, 0, 2413/10, 1/100⟩

/-- A tiny normalized no-dose run: horizon 1 min, step 0.5 min. -/
def baseScenario : Params := ⟨70, 0, 0, 0, 1, 1/2⟩

/-- The §8 bolus-only scenario: weight 70, bolus 100 mg. -/
def bolusScenario : Params := ⟨70, 100, 0, 0, 240, 1/5⟩

/-- A three-point trace whose C1 maximum 5 is attained at the first two
indices: the tie-break must pick the earlier time 0. -/
def tieScenario : Sol := ⟨[0, 1, 2], [], [], [], [5, 5, 3]⟩

/-! ## Guardrail lemmas (per field) -/

lemma guardrails_weight_spec (r : RawParams) :
    0 < (guardrails r).weight ∧
      ((∀ x, r.weight = some x → x ≤ 0) → (guardrails r).weight = 70) := by
  obtain ⟨w, b, ir, idur, te, dt⟩ := r
  simp only [guardrails]
  rcases w with _ | x
  · exact ⟨by norm_num, fun _ => rfl⟩
  · dsimp only
    refine ⟨?_, ?_⟩
    · split_ifs with h
      · norm_num
      · exact not_le.mp h
    · intro hall
      rw [if_pos (hall x rfl)]

lemma guardrails_bolus_spec (r : RawParams) :
    0 ≤ (guardrails r).bolus_mg ∧
      ((∀ x, r.bolus_mg = some x → x < 0) → (guardrails r).bolus_mg = 0) := by
  obtain ⟨w, b, ir, idur, te, dt⟩ := r
  simp only [guardrails]
  rcases b with _ | x
  · exact ⟨le_refl 0, fun _ => rfl⟩
  · dsimp only
    refine ⟨?_, ?_⟩
    · split_ifs with h
      · exact le_refl 0
      · exact le_of_not_lt h
    · intro hall
      rw [if_pos (hall x rfl)]

lemma guardrails_rate_spec (r : RawParams) :
    0 ≤ (guardrails r).infusion_mg_min ∧
      ((∀ x, r.infusion_mg_min = some x → x < 0) → (guardrails r).infusion_mg_min = 0) := by
  obtain ⟨w, b, ir, idur, te, dt⟩ := r
  simp only [guardrails]
  rcases ir with _ | x
  · exact ⟨le_refl 0, fun _ => rfl⟩
  · dsimp only
    refine ⟨?_, ?_⟩
    · split_ifs with h
      · exact le_refl 0
      · exact le_of_not_lt h
    · intro hall
      rw [if_pos (hall x rfl)]

lemma guardrails_duration_spec (r : RawParams) :
    0 ≤ (guardrails r).infusion_duration_min ∧
      ((∀ x, r.infusion_duration_min = some x → x < 0) →
        (guardrails r).infusion_duration_min = 0) := by
  obtain ⟨w, b, ir, idur, te, dt⟩ := r
  simp only [guardrails]
  rcases idur with _ | x
  · exact ⟨le_refl 0, fun _ => rfl⟩
  · dsimp only
    refine ⟨?_, ?_⟩
    · split_ifs with h
      · exact le_refl 0
      · exact le_of_not_lt h
    · intro hall
      rw [if_pos (hall x rfl)]

lemma guardrails_horizon_spec (r : RawParams) :
    0 < (guardrails r).t_end_min ∧
      ((∀ x, r.t_end_min = some x → x ≤ 0) → (guardrails r).t_end_min = 240) := by
  obtain ⟨w, b, ir, idur, te, dt⟩ := r
  simp only [guardrails]
  rcases te with _ | x
  · exact ⟨by norm_num, fun _ => rfl⟩
  · dsimp only
    refine ⟨?_, ?_⟩
    · split_ifs with h
      · norm_num
      · exact not_le.mp h
    · intro hall
      rw [if_pos (hall x rfl)]

lemma guardrails_dt_spec (r : RawParams) :
    0 < (guardrails r).dt_min ∧
      ((∀ x, r.dt_min = some x → x ≤ 0) → (guardrails r).dt_min = 1/5) := by
  obtain ⟨w, b, ir, idur, te, dt⟩ := r
  simp only [guardrails]
  rcases dt with _ | x
  · exact ⟨by norm_num, fun _ => rfl⟩
  · dsimp only
    refine ⟨?_, ?_⟩
    · split_ifs with h
      · norm_num
      · exact not_le.mp h
    · intro hall
      rw [if_pos (hall x rfl)]

/-- C1: for every raw parameter record (any field possibly missing,
non-numeric, or out of range), the guardrail block of `readParams` returns a
parameter set satisfying every §3 constraint — `weight > 0` (default 70),
`bolusDose ≥ 0` (default 0), `infusionRate ≥ 0` (default 0),
`infusionDuration ≥ 0` (default 0), `horizon > 0` (default 240),
`stepSize > 0` (default 0.2) — and never signals an error (it is a total
function into `Params`). -/
theorem readParams_guardrails_total (r : RawParams) :
    Normalized (guardrails r) ∧
      ((∀ x, r.weight = some x → x ≤ 0) → (guardrails r).weight = 70) ∧
      ((∀ x, r.bolus_mg = some x → x < 0) → (guardrails r).bolus_mg = 0) ∧
      ((∀ x, r.infusion_mg_min = some x → x < 0) → (guardrails r).infusion_mg_min = 0) ∧
      ((∀ x, r.infusion_duration_min = some x → x < 0) →
        (guardrails r).infusion_duration_min = 0) ∧
      ((∀ x, r.t_end_min = some x → x ≤ 0) → (guardrails r).t_end_min = 240) ∧
      ((∀ x, r.dt_min = some x → x ≤ 0) → (guardrails r).dt_min = 1/5) :=
  ⟨⟨(guardrails_weight_spec r).1, (guardrails_bolus_spec r).1, (guardrails_rate_spec r).1,
      (guardrails_duration_spec r).1, (guardrails_horizon_spec r).1, (guardrails_dt_spec r).1⟩,
    (guardrails_weight_spec r).2, (guardrails_bolus_spec r).2, (guardrails_rate_spec r).2,
    (guardrails_duration_spec r).2, (guardrails_horizon_spec r).2, (guardrails_dt_spec r).2⟩

/-- C1 witness: the all-missing raw record is repaired to the default
parameter set, which is normalized. -/
theorem readParams_guardrails_total_witness :
    Normalized (guardrails rawNone) ∧ (guardrails rawNone).weight = 70 ∧
      (guardrails rawNone).bolus_mg = 0 ∧ (guardrails rawNone).infusion_mg_min = 0 ∧
      (guardrails rawNone).infusion_duration_min = 0 ∧
      (guardrails rawNone).t_end_min = 240 ∧ (guardrails rawNone).dt_min = 1/5 := by
  obtain ⟨h1, h2, h3, h4, h5, h6, h7⟩ := readParams_guardrails_total rawNone
  exact ⟨h1, h2 (by simp [rawNone]), h3 (by simp [rawNone]), h4 (by simp [rawNone]),
    h5 (by simp [rawNone]), h6 (by simp [rawNone]), h7 (by simp [rawNone])⟩

/-- C2: when the requested step count `horizon / stepSize` exceeds 20000 the
normalizer enlarges the step size to `horizon / 20000`, and then
`⌈horizon / effectiveStep⌉ ≤ 20000`; when the requested step count is at most
20000 the step size is left unchanged. -/
theorem capSteps_spec (p : Params) (hT : 0 < p.t_end_min) :
    (MAX_STEPS < p.t_end_min / p.dt_min →
      (capSteps p).dt_min = p.t_end_min / MAX_STEPS ∧
        ⌈p.t_end_min / (capSteps p).dt_min⌉ ≤ 20000) ∧
    (p.t_end_min / p.dt_min ≤ MAX_STEPS → (capSteps p).dt_min = p.dt_min) := by
  constructor
  · intro hcap
    have h1 : (capSteps p).dt_min = p.t_end_min / MAX_STEPS := by
      unfold capSteps
      rw [if_pos hcap]
    refine ⟨h1, ?_⟩
    rw [h1]
    have hT0 : p.t_end_min ≠ 0 := ne_of_gt hT
    have h2 : p.t_end_min / (p.t_end_min / MAX_STEPS) = MAX_STEPS := by
      rw [div_div_eq_mul_div, mul_comm, mul_div_assoc, div_self hT0, mul_one]
    rw [h2]
    norm_num [MAX_STEPS]
  · intro hle
    unfold capSteps
    rw [if_neg (not_lt.mpr hle)]

/-- C2 witness: horizon 240 with requested step `1/100000` (24 000 000 steps)
is capped. -/
theorem capSteps_spec_witness :
    (capSteps capScenario).dt_min = capScenario.t_end_min / MAX_STEPS ∧
      ⌈capScenario.t_end_min / (capSteps capScenario).dt_min⌉ ≤ 20000 :=
  (capSteps_spec capScenario (by norm_num [capScenario])).1
    (by norm_num [capScenario, MAX_STEPS])

/-- C6: the infusion term equals `infusion_mg_min` when the rate and duration
are positive and `0 ≤ t ≤ infusion_duration_min` (boundary included), and
equals 0 whenever the rate is ≤ 0, the duration is ≤ 0, or `t` is past the
duration. -/
theorem doseRate_spec (p : Params) (t : ℚ) :
    (0 < p.infusion_mg_min → 0 < p.infusion_duration_min → 0 ≤ t →
      t ≤ p.infusion_duration_min → doseRate t p = p.infusion_mg_min) ∧
    (p.infusion_mg_min ≤ 0 ∨ p.infusion_duration_min ≤ 0 ∨ p.infusion_duration_min < t →
      doseRate t p = 0) := by
  constructor
  · intro hr hd _ ht
    have hcond : ¬(p.infusion_mg_min ≤ 0 ∨ p.infusion_duration_min ≤ 0) := by
      push_neg
      exact ⟨hr, hd⟩
    unfold doseRate
    rw [if_neg hcond, if_pos ht]
  · intro h
    unfold doseRate
    rcases h with h | h | h
    · rw [if_pos (Or.inl h)]
    · rw [if_pos (Or.inr h)]
    · split_ifs with h1 h2
      · rfl
      · linarith
      · rfl

/-- C6 witness: with rate 10 and duration 30, the dose term is 10 at `t = 5`
(and at the boundary `t = 30`) and 0 at `t = 31`. -/
theorem doseRate_spec_witness :
    doseRate 5 infusionScenario = infusionScenario.infusion_mg_min ∧
      doseRate 30 infusionScenario = infusionScenario.infusion_mg_min ∧
      doseRate 31 infusionScenario = 0 :=
  ⟨(doseRate_spec infusionScenario 5).1 (by norm_num [infusionScenario])
      (by norm_num [infusionScenario]) (by norm_num) (by norm_num [infusionScenario]),
    (doseRate_spec infusionScenario 30).1 (by norm_num [infusionScenario])
      (by norm_num [infusionScenario]) (by norm_num) (by norm_num [infusionScenario]),
    (doseRate_spec infusionScenario 31).2 (Or.inr (Or.inr (by norm_num [infusionScenario])))⟩

/-- C8 counterexample: with horizon 241.3 and requested step 0.01 the cap
fires, the effective step used by the integration is `2413/200000 = 0.012065`,
but the value written back into the input surface is `toFixed 4` of it,
`0.0121`, which is not equal to the effective step. -/
theorem capSteps_reflected_counterexample :
    MAX_STEPS < reflectScenario.t_end_min / reflectScenario.dt_min ∧
      (capSteps reflectScenario).dt_min = 2413/200000 ∧
      reflectedDt reflectScenario = some (121/10000) ∧
      (121/10000 : ℚ) ≠ 2413/200000 := by
  refine ⟨by norm_num [reflectScenario, MAX_STEPS], ?_, ?_, by norm_num⟩
  · unfold capSteps
    rw [if_pos (by norm_num [reflectScenario, MAX_STEPS])]
    norm_num [reflectScenario, MAX_STEPS]
  · unfold reflectedDt
    rw [if_pos (by norm_num [reflectScenario, MAX_STEPS])]
    norm_num [reflectScenario, MAX_STEPS, toFixed4]

/-- C8 (amended): whenever the step-count guard enlarges the step size, the
parameter set handed to the integration carries the exact effective step
`horizon / 20000`, while the value reflected into the input surface is that
effective step rounded to four decimal places (`toFixed 4`), which can differ
from the effective step. -/
theorem capSteps_reflected_amended (p : Params)
    (hcap : MAX_STEPS < p.t_end_min / p.dt_min) :
    (capSteps p).dt_min = p.t_end_min / MAX_STEPS ∧
      reflectedDt p = some (toFixed4 ((capSteps p).dt_min)) := by
  have h1 : (capSteps p).dt_min = p.t_end_min / MAX_STEPS := by
    unfold capSteps
    rw [if_pos hcap]
  refine ⟨h1, ?_⟩
  unfold reflectedDt
  rw [if_pos hcap, h1]

/-- C8 amended witness: the reflected value at the 241.3-minute scenario is
`toFixed 4` of the effective step actually used. -/
theorem capSteps_reflected_amended_witness :
    (capSteps reflectScenario).dt_min = reflectScenario.t_end_min / MAX_STEPS ∧
      reflectedDt reflectScenario = some (toFixed4 ((capSteps reflectScenario).dt_min)) :=
  capSteps_reflected_amended reflectScenario (by norm_num [reflectScenario, MAX_STEPS])

/-! ## Mass non-negativity (C4) -/

lemma step_nonneg (p : Params) (t A1 A2 A3 h : ℚ) :
    0 ≤ (step p t A1 A2 A3 h).1 ∧ 0 ≤ (step p t A1 A2 A3 h).2.1 ∧
      0 ≤ (step p t A1 A2 A3 h).2.2 := by
  unfold step
  exact ⟨le_max_left 0 _, le_max_left 0 _, le_max_left 0 _⟩

lemma loop_mass_nonneg (p : Params) : ∀ (n : Nat) (t A1 A2 A3 : ℚ),
    ∀ r ∈ loop p n t A1 A2 A3, 0 ≤ r.A1 ∧ 0 ≤ r.A2 ∧ 0 ≤ r.A3 := by
  intro n
  induction n with
  | zero =>
    intro t A1 A2 A3 r hr
    simp [loop] at hr
  | succ n ih =>
    intro t A1 A2 A3 r hr
    simp only [loop] at hr
    split_ifs at hr with hbreak
    · simp at hr
    · rcases List.mem_cons.mp hr with rfl | hr
      · exact step_nonneg p t A1 A2 A3 _
      · exact ih _ _ _ _ r hr

/-- C4: for every normalized parameter set, every entry of the `A1`, `A2` and
`A3` sequences produced by `solveRK4` is non-negative: the initial state
`A1 = bolusDose ≥ 0, A2 = A3 = 0` is non-negative and the masses are clamped
to zero after every RK4 update. -/
theorem solveRK4_mass_nonneg (p : Params) (hb : 0 ≤ p.bolus_mg) :
    (∀ x ∈ (solveRK4 p).A1, 0 ≤ x) ∧ (∀ x ∈ (solveRK4 p).A2, 0 ≤ x) ∧
      (∀ x ∈ (solveRK4 p).A3, 0 ≤ x) := by
  refine ⟨?_, ?_, ?_⟩ <;> intro x hx <;>
    simp only [solveRK4, List.map_cons, List.mem_cons, List.mem_map] at hx <;>
    rcases hx with rfl | ⟨r, hr, rfl⟩
  · exact hb
  · exact (loop_mass_nonneg p _ _ _ _ _ r hr).1
  · exact le_refl 0
  · exact (loop_mass_nonneg p _ _ _ _ _ r hr).2.1
  · exact le_refl 0
  · exact (loop_mass_nonneg p _ _ _ _ _ r hr).2.2

/-- C4 witness: the §8 bolus-only scenario has `bolusDose = 100 ≥ 0`. -/
theorem solveRK4_mass_nonneg_witness :
    (∀ x ∈ (solveRK4 bolusScenario).A1, 0 ≤ x) ∧
      (∀ x ∈ (solveRK4 bolusScenario).A2, 0 ≤ x) ∧
      (∀ x ∈ (solveRK4 bolusScenario).A3, 0 ≤ x) :=
  solveRK4_mass_nonneg bolusScenario (by norm_num [bolusScenario])

/-! ## Weight non-interference (C10) -/

lemma loop_weight (p : Params) (w : ℚ) : ∀ (n : Nat) (t A1 A2 A3 : ℚ),
    loop { p with weight := w } n t A1 A2 A3 = loop p n t A1 A2 A3 := by
  intro n
  induction n with
  | zero => intro t A1 A2 A3; rfl
  | succ n ih =>
    intro t A1 A2 A3
    simp only [loop]
    have e1 : ({ p with weight := w } : Params).t_end_min = p.t_end_min := rfl
    have e2 : ({ p with weight := w } : Params).dt_min = p.dt_min := rfl
    have e3 : ∀ t A1 A2 A3 h, step { p with weight := w } t A1 A2 A3 h = step p t A1 A2 A3 h :=
      fun _ _ _ _ _ => rfl
    rw [e1, e2, e3, ih]

/-- C10: two normalized parameter sets that differ only in `weight` produce
identical `t`, `A1`, `A2`, `A3` sequences (weight never enters the derivative
function or the stepping loop); weight only enters the derived `C1` sequence,
as the divisor `V1 = V1_per_kg * weight` applied once at the end. -/
theorem solveRK4_weight_noninterference (p : Params) (w : ℚ) :
    (solveRK4 { p with weight := w }).t = (solveRK4 p).t ∧
      (solveRK4 { p with weight := w }).A1 = (solveRK4 p).A1 ∧
      (solveRK4 { p with weight := w }).A2 = (solveRK4 p).A2 ∧
      (solveRK4 { p with weight := w }).A3 = (solveRK4 p).A3 ∧
      (solveRK4 p).C1 = (solveRK4 p).A1.map (fun a => a / (V1_per_kg * p.weight)) := by
  have e4 : nSteps { p with weight := w } = nSteps p := rfl
  refine ⟨?_, ?_, ?_, ?_, rfl⟩ <;>
    · simp only [solveRK4]
      rw [e4, loop_weight]

/-! ## Degenerate traces (C9) -/

/-- C9: on an empty trace `computeMetrics` yields `auc = 0` and the sentinel
`cmax = ⊥` (JavaScript `-Infinity`) with `tmax = 0`, and the sentinel is
distinguishable from a legitimate zero concentration; on a one-point trace it
yields `auc = 0` with `cmax`/`tmax` equal to that sample's concentration and
time. -/
theorem computeMetrics_degenerate :
    (computeMetrics ⟨[], [], [], [], []⟩ = (⊥, 0, 0) ∧
      (⊥ : WithBot ℚ) ≠ ((0 : ℚ) : WithBot ℚ)) ∧
    ∀ t0 c0 : ℚ, computeMetrics ⟨[t0], [0], [0], [0], [c0]⟩ = ((c0 : WithBot ℚ), t0, 0) := by
  refine ⟨⟨rfl, by simp⟩, ?_⟩
  intro t0 c0
  simp [computeMetrics, metricsLoop, aucStep, WithBot.bot_lt_coe]

/-! ## No-dose baseline (C7) -/

lemma doseRate_eq_zero (p : Params)
    (h : p.infusion_mg_min = 0 ∨ p.infusion_duration_min = 0) (t : ℚ) :
    doseRate t p = 0 := by
  unfold doseRate
  rcases h with h | h
  · rw [if_pos (Or.inl (le_of_eq h))]
  · rw [if_pos (Or.inr (le_of_eq h))]

lemma step_zero (p : Params) (h : ∀ t, doseRate t p = 0) (t hstep : ℚ) :
    step p t 0 0 0 hstep = (0, 0, 0) := by
  simp [step, deriv, h]

lemma loop_zero (p : Params) (h : ∀ t, doseRate t p = 0) : ∀ (n : Nat) (t : ℚ),
    ∀ r ∈ loop p n t 0 0 0, r.A1 = 0 ∧ r.A2 = 0 ∧ r.A3 = 0 := by
  intro n
  induction n with
  | zero =>
    intro t r hr
    simp [loop] at hr
  | succ n ih =>
    intro t r hr
    simp only [loop, step_zero p h] at hr
    split_ifs at hr with hbreak
    · simp at hr
    · rcases List.mem_cons.mp hr with rfl | hr
      · exact ⟨rfl, rfl, rfl⟩
      · exact ih _ r hr

lemma metricsLoop_zero_tail : ∀ (l : List (ℚ × ℚ)) (tp tm a : ℚ),
    (∀ x ∈ l, x.2 = 0) →
    metricsLoop l (some (tp, 0)) (((0 : ℚ) : WithBot ℚ), tm, a) =
      (((0 : ℚ) : WithBot ℚ), tm, a) := by
  intro l
  induction l with
  | nil => intro tp tm a _; rfl
  | cons hd rest ih =>
    intro tp tm a hall
    obtain ⟨t, c⟩ := hd
    have hc : c = 0 := hall (t, c) (List.mem_cons_self _ _)
    subst hc
    simp only [metricsLoop, aucStep]
    rw [if_neg (lt_irrefl _), if_neg (lt_irrefl _)]
    have ha : a + 1/2 * (0 + 0) * (t - tp) = a := by ring
    rw [ha]
    exact ih t tm a (fun x hx => hall x (List.mem_cons_of_mem _ hx))

lemma metricsLoop_allzero (tl cl : List ℚ) (hcl : ∀ x ∈ cl, x = 0) (hne : cl ≠ [])
    (hlen : tl.length = cl.length) :
    metricsLoop (tl.zip cl) none (⊥, 0, 0) =
      (((0 : ℚ) : WithBot ℚ), (metricsLoop (tl.zip cl) none (⊥, 0, 0)).2.1, 0) := by
  rcases cl with _ | ⟨c0, cr⟩
  · exact absurd rfl hne
  rcases tl with _ | ⟨t0, tr⟩
  · simp at hlen
  have hc0 : c0 = 0 := hcl c0 (List.mem_cons_self _ _)
  subst hc0
  simp only [List.zip_cons_cons, metricsLoop, aucStep]
  rw [if_pos (WithBot.bot_lt_coe 0), if_pos (WithBot.bot_lt_coe 0)]
  have htail : metricsLoop (List.zipWith Prod.mk tr cr) (some (t0, 0))
      (((0 : ℚ) : WithBot ℚ), t0, 0) = (((0 : ℚ) : WithBot ℚ), t0, 0) := by
    refine metricsLoop_zero_tail (List.zipWith Prod.mk tr cr) t0 t0 0 ?_
    intro x hx
    exact hcl x.2 (List.mem_cons_of_mem _ (List.of_mem_zip hx).2)
  rw [htail]

/-- C7: for every normalized parameter set with `bolusDose = 0` and
`infusionRate = 0` (or `infusionDuration = 0`), the `solveRK4` trace is
identically zero in `A1`, `A2`, `A3` and `C1`, and the metrics satisfy
`cmax = 0` and `auc = 0`. -/
theorem solveRK4_no_dose_baseline (p : Params) (hN : Normalized p)
    (hb : p.bolus_mg = 0)
    (h0 : p.infusion_mg_min = 0 ∨ p.infusion_duration_min = 0) :
    (∀ x ∈ (solveRK4 p).A1, x = 0) ∧ (∀ x ∈ (solveRK4 p).A2, x = 0) ∧
      (∀ x ∈ (solveRK4 p).A3, x = 0) ∧ (∀ x ∈ (solveRK4 p).C1, x = 0) ∧
      (computeMetrics (solveRK4 p)).1 = ((0 : ℚ) : WithBot ℚ) ∧
      (computeMetrics (solveRK4 p)).2.2 = 0 := by
  have hd : ∀ t, doseRate t p = 0 := doseRate_eq_zero p h0
  have hA1 : ∀ x ∈ (solveRK4 p).A1, x = 0 := by
    intro x hx
    simp only [solveRK4, hb, List.map_cons, List.mem_cons, List.mem_map] at hx
    rcases hx with rfl | ⟨r, hr, rfl⟩
    · rfl
    · exact (loop_zero p hd _ _ r hr).1
  have hA2 : ∀ x ∈ (solveRK4 p).A2, x = 0 := by
    intro x hx
    simp only [solveRK4, hb, List.map_cons, List.mem_cons, List.mem_map] at hx
    rcases hx with rfl | ⟨r, hr, rfl⟩
    · rfl
    · exact (loop_zero p hd _ _ r hr).2.1
  have hA3 : ∀ x ∈ (solveRK4 p).A3, x = 0 := by
    intro x hx
    simp only [solveRK4, hb, List.map_cons, List.mem_cons, List.mem_map] at hx
    rcases hx with rfl | ⟨r, hr, rfl⟩
    · rfl
    · exact (loop_zero p hd _ _ r hr).2.2
  have hC1 : ∀ x ∈ (solveRK4 p).C1, x = 0 := by
    intro x hx
    have : (solveRK4 p).C1 = (solveRK4 p).A1.map
        (fun a => a / (V1_per_kg * p.weight)) := rfl
    rw [this] at hx
    obtain ⟨a, ha, rfl⟩ := List.mem_map.mp hx
    rw [hA1 a ha, zero_div]
  have hlen : (solveRK4 p).t.length = (solveRK4 p).C1.length := by
    simp [solveRK4]
  have hne : (solveRK4 p).C1 ≠ [] := by
    simp [solveRK4]
  have hmetrics := metricsLoop_allzero (solveRK4 p).t (solveRK4 p).C1 hC1 hne hlen
  refine ⟨hA1, hA2, hA3, hC1, ?_, ?_⟩
  · show (metricsLoop ((solveRK4 p).t.zip (solveRK4 p).C1) none (⊥, 0, 0)).1 = _
    rw [hmetrics]
  · show (metricsLoop ((solveRK4 p).t.zip (solveRK4 p).C1) none (⊥, 0, 0)).2.2 = _
    rw [hmetrics]

/-- C7 witness: the tiny no-dose scenario (bolus 0, rate 0) is normalized and
yields the all-zero trace and zero metrics. -/
theorem solveRK4_no_dose_baseline_witness :
    (∀ x ∈ (solveRK4 baseScenario).A1, x = 0) ∧
      (∀ x ∈ (solveRK4 baseScenario).A2, x = 0) ∧
      (∀ x ∈ (solveRK4 baseScenario).A3, x = 0) ∧
      (∀ x ∈ (solveRK4 baseScenario).C1, x = 0) ∧
      (computeMetrics (solveRK4 baseScenario)).1 = ((0 : ℚ) : WithBot ℚ) ∧
      (computeMetrics (solveRK4 baseScenario)).2.2 = 0 :=
  solveRK4_no_dose_baseline baseScenario
    (by refine ⟨?_, ?_, ?_, ?_, ?_, ?_⟩ <;> norm_num [baseScenario])
    (by norm_num [baseScenario]) (Or.inl (by norm_num [baseScenario]))

/-! ## Trace termination (C3) -/

lemma getLast?_cons_of_ne_nil {α : Type} (a : α) {l : List α} (h : l ≠ []) :
    (a :: l).getLast? = l.getLast? := by
  cases l with
  | nil => exact absurd rfl h
  | cons b t => exact List.getLast?_cons_cons

lemma loop_break (p : Params) {n : Nat} {t A1 A2 A3 : ℚ} (h : p.t_end_min ≤ t) :
    loop p n t A1 A2 A3 = [] := by
  cases n with
  | zero => rfl
  | succ n =>
    simp only [loop]
    rw [if_pos h]

lemma loop_mem_t_le (p : Params) : ∀ (n : Nat) (t A1 A2 A3 : ℚ), t ≤ p.t_end_min →
    ∀ r ∈ loop p n t A1 A2 A3, r.t ≤ p.t_end_min := by
  intro n
  induction n with
  | zero =>
    intro t A1 A2 A3 _ r hr
    simp [loop] at hr
  | succ n ih =>
    intro t A1 A2 A3 ht r hr
    simp only [loop] at hr
    split_ifs at hr with hbreak
    · simp at hr
    · have ht' : t + min p.dt_min (p.t_end_min - t) ≤ p.t_end_min := by
        have := min_le_right p.dt_min (p.t_end_min - t)
        linarith
      rcases List.mem_cons.mp hr with rfl | hr
      · exact ht'
      · exact ih _ _ _ _ ht' r hr

lemma loop_last_t (p : Params) (hdt : 0 < p.dt_min) : ∀ (n : Nat) (t A1 A2 A3 : ℚ),
    t < p.t_end_min → p.t_end_min - t ≤ n * p.dt_min →
    ((loop p n t A1 A2 A3).map Row.t).getLast? = some p.t_end_min := by
  intro n
  induction n with
  | zero =>
    intro t A1 A2 A3 ht hfuel
    exfalso
    push_cast at hfuel
    linarith
  | succ n ih =>
    intro t A1 A2 A3 ht hfuel
    simp only [loop]
    rw [if_neg (not_le.mpr ht)]
    by_cases hcase : p.t_end_min - t ≤ p.dt_min
    · have hmin : min p.dt_min (p.t_end_min - t) = p.t_end_min - t := min_eq_right hcase
      rw [hmin]
      have ht' : t + (p.t_end_min - t) = p.t_end_min := by ring
      rw [ht']
      rw [loop_break p (le_refl p.t_end_min)]
      rfl
    · have hlt : p.dt_min < p.t_end_min - t := not_le.mp hcase
      have hmin : min p.dt_min (p.t_end_min - t) = p.dt_min := min_eq_left (le_of_lt hlt)
      rw [hmin]
      have ht' : t + p.dt_min < p.t_end_min := by linarith
      have hfuel' : p.t_end_min - (t + p.dt_min) ≤ n * p.dt_min := by
        push_cast at hfuel ⊢
        linarith
      have hrec := ih (t + p.dt_min)
        ((step p t A1 A2 A3 p.dt_min).1) ((step p t A1 A2 A3 p.dt_min).2.1)
        ((step p t A1 A2 A3 p.dt_min).2.2) ht' hfuel'
      have hnonempty : ((loop p n (t + p.dt_min) ((step p t A1 A2 A3 p.dt_min).1)
          ((step p t A1 A2 A3 p.dt_min).2.1) ((step p t A1 A2 A3 p.dt_min).2.2)).map
            Row.t) ≠ [] := by
        intro hempty
        rw [hempty] at hrec
        simp at hrec
      rw [List.map_cons, getLast?_cons_of_ne_nil _ hnonempty]
      exact hrec

/-- C3: for every normalized parameter set (`stepSize > 0`, `horizon > 0`),
the time sequence produced by `solveRK4` ends with a last element exactly
equal to the horizon, and no time point in the trace exceeds the horizon (the
final step uses `h = min stepSize (horizon - t)`, never overshooting). -/
theorem solveRK4_trace_termination (p : Params) (hdt : 0 < p.dt_min)
    (hT : 0 < p.t_end_min) :
    (solveRK4 p).t.getLast? = some p.t_end_min ∧
      ∀ x ∈ (solveRK4 p).t, x ≤ p.t_end_min := by
  have hfuel : p.t_end_min - 0 ≤ (nSteps p : ℚ) * p.dt_min := by
    unfold nSteps
    have hpos : 0 < p.t_end_min / p.dt_min := div_pos hT hdt
    have hceil : (0 : ℤ) ≤ ⌈p.t_end_min / p.dt_min⌉ :=
      le_of_lt (Int.ceil_pos.mpr hpos)
    have hle : p.t_end_min / p.dt_min ≤ (⌈p.t_end_min / p.dt_min⌉ : ℚ) :=
      Int.le_ceil _
    have hmul : (p.t_end_min / p.dt_min) * p.dt_min ≤
        (⌈p.t_end_min / p.dt_min⌉ : ℚ) * p.dt_min :=
      mul_le_mul_of_nonneg_right hle (le_of_lt hdt)
    rw [div_mul_cancel₀ _ (ne_of_gt hdt)] at hmul
    rw [sub_zero]
    have hcast : ((⌈p.t_end_min / p.dt_min⌉.toNat : ℕ) : ℚ) =
        ((⌈p.t_end_min / p.dt_min⌉ : ℤ) : ℚ) := by
      exact_mod_cast Int.toNat_of_nonneg hceil
    calc p.t_end_min ≤ (⌈p.t_end_min / p.dt_min⌉ : ℚ) * p.dt_min := hmul
      _ = ((⌈p.t_end_min / p.dt_min⌉.toNat : ℕ) : ℚ) * p.dt_min := by rw [hcast]
  constructor
  · have hlast := loop_last_t p hdt (nSteps p) 0 p.bolus_mg 0 0 hT hfuel
    have hnonempty : ((loop p (nSteps p) 0 p.bolus_mg 0 0).map Row.t) ≠ [] := by
      intro hempty
      rw [hempty] at hlast
      simp at hlast
    show ((⟨0, p.bolus_mg, 0, 0⟩ :: loop p (nSteps p) 0 p.bolus_mg 0 0).map
      Row.t).getLast? = some p.t_end_min
    rw [List.map_cons, getLast?_cons_of_ne_nil _ hnonempty]
    exact hlast
  · intro x hx
    simp only [solveRK4, List.map_cons, List.mem_cons, List.mem_map] at hx
    rcases hx with rfl | ⟨r, hr, rfl⟩
    · exact le_of_lt hT
    · exact loop_mem_t_le p (nSteps p) 0 p.bolus_mg 0 0 (le_of_lt hT) r hr

/-- C3 witness: on the tiny scenario (horizon 1, step 0.5) the trace ends at
the horizon and never exceeds it. -/
theorem solveRK4_trace_termination_witness :
    (solveRK4 baseScenario).t.getLast? = some baseScenario.t_end_min ∧
      ∀ x ∈ (solveRK4 baseScenario).t, x ≤ baseScenario.t_end_min :=
  solveRK4_trace_termination baseScenario (by norm_num [baseScenario])
    (by norm_num [baseScenario])

/-! ## cmax / tmax (C5) -/

lemma maximum_le_of_forall {l : List ℚ} {m : WithBot ℚ}
    (h : ∀ x ∈ l, (x : WithBot ℚ) ≤ m) : l.maximum ≤ m := by
  induction l with
  | nil => exact bot_le
  | cons a t ih =>
    rw [List.maximum_cons]
    exact max_le (h a (List.mem_cons_self _ _))
      (ih fun x hx => h x (List.mem_cons_of_mem _ hx))

lemma metricsLoop_cmax : ∀ (l : List (ℚ × ℚ)) (prev : Option (ℚ × ℚ))
    (m : WithBot ℚ) (tm a : ℚ),
    (metricsLoop l prev (m, tm, a)).1 = max m (l.map Prod.snd).maximum := by
  intro l
  induction l with
  | nil =>
    intro prev m tm a
    rw [List.map_nil, List.maximum_nil]
    exact (max_eq_left bot_le).symm
  | cons hd rest ih =>
    intro prev m tm a
    obtain ⟨t, c⟩ := hd
    simp only [metricsLoop]
    rw [ih, List.map_cons, List.maximum_cons]
    by_cases h : m < (c : WithBot ℚ)
    · rw [if_pos h, ← max_assoc, max_eq_right (le_of_lt h)]
    · rw [if_neg h, ← max_assoc, max_eq_left (not_lt.mp h)]

lemma metricsLoop_tmax : ∀ (l : List (ℚ × ℚ)) (prev : Option (ℚ × ℚ))
    (m : WithBot ℚ) (tm a : ℚ),
    ((∀ x ∈ l, (x.2 : WithBot ℚ) ≤ m) ∧ (metricsLoop l prev (m, tm, a)).2.1 = tm) ∨
    (∃ (i : ℕ) (hi : i < l.length),
      m < ((l.get ⟨i, hi⟩).2 : WithBot ℚ) ∧
      ((l.get ⟨i, hi⟩).2 : WithBot ℚ) = max m (l.map Prod.snd).maximum ∧
      (metricsLoop l prev (m, tm, a)).2.1 = (l.get ⟨i, hi⟩).1 ∧
      ∀ (j : ℕ) (hj : j < i), (l.get ⟨j, lt_trans hj hi⟩).2 < (l.get ⟨i, hi⟩).2) := by
  intro l
  induction l with
  | nil =>
    intro prev m tm a
    exact Or.inl ⟨fun x hx => absurd hx (List.not_mem_nil x), rfl⟩
  | cons hd rest ih =>
    intro prev m tm a
    obtain ⟨t, c⟩ := hd
    simp only [metricsLoop]
    by_cases h : m < (c : WithBot ℚ)
    · rw [if_pos h, if_pos h]
      rcases ih (some (t, c)) (c : WithBot ℚ) t (aucStep prev t c a) with
        ⟨hall, heq⟩ | ⟨i, hi, hlt, hmax, heq, hstrict⟩
      · refine Or.inr ⟨0, Nat.succ_pos _, h, ?_, heq, ?_⟩
        · show (c : WithBot ℚ) = max m (((t, c) :: rest).map Prod.snd).maximum
          have hR : (rest.map Prod.snd).maximum ≤ (c : WithBot ℚ) := by
            refine maximum_le_of_forall ?_
            intro y hy
            obtain ⟨x, hx, rfl⟩ := List.mem_map.mp hy
            exact hall x hx
          rw [List.map_cons, List.maximum_cons, max_eq_left hR,
            max_eq_right (le_of_lt h)]
        · intro j hj
          exact absurd hj (Nat.not_lt_zero j)
      · refine Or.inr ⟨i + 1, Nat.succ_lt_succ hi, lt_trans h hlt, ?_, heq, ?_⟩
        · show ((rest.get ⟨i, hi⟩).2 : WithBot ℚ) =
            max m (((t, c) :: rest).map Prod.snd).maximum
          rw [List.map_cons, List.maximum_cons, ← max_assoc,
            max_eq_right (le_of_lt h)]
          exact hmax
        · intro j hj
          cases j with
          | zero => exact WithBot.coe_lt_coe.mp hlt
          | succ j => exact hstrict j (Nat.lt_of_succ_lt_succ hj)
    · rw [if_neg h, if_neg h]
      rcases ih (some (t, c)) m tm (aucStep prev t c a) with
        ⟨hall, heq⟩ | ⟨i, hi, hlt, hmax, heq, hstrict⟩
      · refine Or.inl ⟨?_, heq⟩
        intro x hx
        rcases List.mem_cons.mp hx with rfl | hx
        · exact not_lt.mp h
        · exact hall x hx
      · refine Or.inr ⟨i + 1, Nat.succ_lt_succ hi, hlt, ?_, heq, ?_⟩
        · show ((rest.get ⟨i, hi⟩).2 : WithBot ℚ) =
            max m (((t, c) :: rest).map Prod.snd).maximum
          rw [List.map_cons, List.maximum_cons, ← max_assoc,
            max_eq_left (not_lt.mp h)]
          exact hmax
        · intro j hj
          cases j with
          | zero => exact WithBot.coe_lt_coe.mp (lt_of_le_of_lt (not_lt.mp h) hlt)
          | succ j => exact hstrict j (Nat.lt_of_succ_lt_succ hj)

/-- C5: for every non-empty trace (with parallel `t` and `C1` sequences),
`computeMetrics` returns `cmax` equal to the maximum of the `C1` sequence and
`tmax` equal to the time coordinate of the first index attaining that
maximum: at that index `C1` attains `cmax`, and every earlier index has a
strictly smaller `C1` value. -/
theorem computeMetrics_cmax_tmax (sol : Sol)
    (hlen : sol.t.length = sol.C1.length) (hne : sol.C1 ≠ []) :
    (computeMetrics sol).1 = sol.C1.maximum ∧
      ∃ (i : ℕ) (hc : i < sol.C1.length) (ht : i < sol.t.length),
        (sol.C1.get ⟨i, hc⟩ : WithBot ℚ) = (computeMetrics sol).1 ∧
        sol.t.get ⟨i, ht⟩ = (computeMetrics sol).2.1 ∧
        ∀ (j : ℕ) (hj : j < i), sol.C1.get ⟨j, lt_trans hj hc⟩ < sol.C1.get ⟨i, hc⟩ := by
  have hsnd : (sol.t.zip sol.C1).map Prod.snd = sol.C1 :=
    List.map_snd_zip _ _ (le_of_eq hlen.symm)
  have hziplen : (sol.t.zip sol.C1).length = sol.C1.length := by
    rw [List.length_zip, hlen, min_self]
  have hcmax : (computeMetrics sol).1 = sol.C1.maximum := by
    show (metricsLoop (sol.t.zip sol.C1) none (⊥, 0, 0)).1 = _
    rw [metricsLoop_cmax, hsnd, max_eq_right bot_le]
  refine ⟨hcmax, ?_⟩
  rcases metricsLoop_tmax (sol.t.zip sol.C1) none ⊥ 0 0 with
    ⟨hall, _⟩ | ⟨i, hi, _, hmax, heq, hstrict⟩
  · exfalso
    have hpos : 0 < (sol.t.zip sol.C1).length := by
      rw [hziplen]
      exact List.length_pos.mpr hne
    have hmem := List.get_mem (sol.t.zip sol.C1) 0 hpos
    exact WithBot.not_coe_le_bot _ (hall _ hmem)
  · have hgetAll : ∀ (k : ℕ) (hk : k < (sol.t.zip sol.C1).length)
        (hkt : k < sol.t.length) (hkc : k < sol.C1.length),
        (sol.t.zip sol.C1).get ⟨k, hk⟩ =
          (sol.t.get ⟨k, hkt⟩, sol.C1.get ⟨k, hkc⟩) := by
      intro k hk hkt hkc
      rw [List.get_eq_getElem, List.get_eq_getElem, List.get_eq_getElem,
        List.getElem_zip]
    have hc : i < sol.C1.length := lt_of_lt_of_le hi (le_of_eq hziplen)
    have ht : i < sol.t.length := by
      rw [hlen]
      exact hc
    refine ⟨i, hc, ht, ?_, ?_, ?_⟩
    · have h1 := hmax
      rw [hgetAll i hi ht hc] at h1
      rw [hsnd, max_eq_right bot_le] at h1
      rw [hcmax]
      exact h1
    · show sol.t.get ⟨i, ht⟩ = (metricsLoop (sol.t.zip sol.C1) none (⊥, 0, 0)).2.1
      rw [heq, hgetAll i hi ht hc]
    · intro j hj
      have hjz : j < (sol.t.zip sol.C1).length := lt_trans hj hi
      have hjc : j < sol.C1.length := lt_trans hj hc
      have hjt : j < sol.t.length := by
        rw [hlen]
        exact hjc
      have h3 := hstrict j hj
      rw [hgetAll j hjz hjt hjc, hgetAll i hi ht hc] at h3
      exact h3

/-- C5 witness: the tie trace `C1 = [5, 5, 3]` at `t = [0, 1, 2]` is
non-empty with parallel sequences. -/
theorem computeMetrics_cmax_tmax_witness :
    (computeMetrics tieScenario).1 = tieScenario.C1.maximum ∧
      ∃ (i : ℕ) (hc : i < tieScenario.C1.length) (ht : i < tieScenario.t.length),
        (tieScenario.C1.get ⟨i, hc⟩ : WithBot ℚ) = (computeMetrics tieScenario).1 ∧
        tieScenario.t.get ⟨i, ht⟩ = (computeMetrics tieScenario).2.1 ∧
        ∀ (j : ℕ) (hj : j < i), tieScenario.C1.get ⟨j, lt_trans hj hc⟩ <
          tieScenario.C1.get ⟨i, hc⟩ :=
  computeMetrics_cmax_tmax tieScenario rfl (by simp [tieScenario])

end BsePk
